import Mathlib

/-!
Verification of the anomaly-correction workflow of the Polestar journey-log
explorer. The embedding follows `App` (the `handleAnomalyCorrection` handler
and the session state hooks) from the source. JavaScript values that can
occur as rows of a dataset are modelled by the inductive `JSVal`; JavaScript
numbers are modelled by `Int` (float-specific behavior is out of scope of
the claims). Object spread `\x7b...a, ...b\x7d` is shallow, with later fields
winning; objects are modelled as field lists whose lookup takes the last
binding. `Set.has` is membership, `Map.set`/`Map.get` is last-write-wins
lookup, both derived from the directive list exactly as the handler's
`forEach` builds them.
-/

namespace Polestar

/-- A JavaScript value as it can appear as an entry of the journey dataset
or as the value of an object field. Spreading a primitive contributes no
fields except for strings, whose index properties are made explicit by
`spreadFields`. -/
inductive JSVal : Type where
  | vNull : JSVal
  | vUndefined : JSVal
  | vBool (b : Bool) : JSVal
  | vNum (n : Int) : JSVal
  | vStr (s : String) : JSVal
  | vObj (fields : List (String × JSVal)) : JSVal

/-- JavaScript truthiness, as used by the final `.filter(Boolean)` of the
handler. -/
def truthy : JSVal → Bool
  | .vNull => false
  | .vUndefined => false
  | .vBool b => b
  | .vNum n => n != 0
  | .vStr s => s != ""
  | .vObj _ => true

/-- A correction directive as submitted by the anomaly modal:
`\x7b tripIndex, action, newData \x7d`. `action` is the raw string of the
source (`"skip"` or `"correct"`; anything else matches neither branch of
the handler's `forEach`). `newData` is the partial patch; a directive whose
`newData` is absent is modelled by the empty patch, which has the same
effect under object spread. -/
structure Directive : Type where
  tripIndex : Int
  action : String
  newData : List (String × JSVal)

/-- The contents of the `indicesToRemove` set built by the handler's
`forEach`: the trip indices of all directives whose action is `"skip"`.
Only membership in this list is ever consulted, matching `Set` semantics. -/
def skipIndices (cs : List Directive) : List Int :=
  (cs.filter (fun c => c.action == "skip")).map (fun c => c.tripIndex)

/-- Lookup in the `updates` map built by the handler's `forEach`:
`Map.set` overwrites, so `Map.get i` returns the `newData` of the last
`"correct"` directive with that trip index, and `Map.has i` is the
`isSome` of this lookup. -/
def updatesGet (cs : List Directive) (i : Int) : Option (List (String × JSVal)) :=
  ((cs.filter (fun c => c.action == "correct" && c.tripIndex == i)).getLast?).map
    (fun c => c.newData)

/-- The own enumerable fields contributed by spreading a value:
objects contribute their fields, strings their index properties, and
`null`, `undefined`, booleans and numbers contribute nothing. -/
def spreadFields : JSVal → List (String × JSVal)
  | .vObj fs => fs
  | .vStr s => s.toList.enum.map (fun p => (toString p.1, JSVal.vStr (String.singleton p.2)))
  | _ => []

/-- The object `\x7b ...item, ...patch \x7d` built for a corrected row:
shallow merge, patch fields last (hence winning under last-binding lookup). -/
def jsMerge (item : JSVal) (patch : List (String × JSVal)) : JSVal :=
  .vObj (spreadFields item ++ patch)

/-- Field lookup on an object value: the last binding of the key wins,
matching the construction order of object spread. -/
def objGet (v : JSVal) (k : String) : Option JSVal :=
  match v with
  | .vObj fs => ((fs.filter (fun f => f.1 == k)).getLast?).map (fun f => f.2)
  | _ => none

/-- The filter callback of the handler's first pipeline stage:
`(_item, index) => !indicesToRemove.has(index)`. -/
def keptAt (cs : List Directive) (i : Nat) : Bool :=
  ! decide ((i : Int) ∈ skipIndices cs)

/-- The map callback of the handler's second pipeline stage, at index `j`
of the array the stage iterates: `null` when the skip set contains `j`,
the spread-merged row when the update map has `j`, the row unchanged
otherwise. -/
def resolveAt (cs : List Directive) (j : Nat) (item : JSVal) : JSVal :=
  if decide ((j : Int) ∈ skipIndices cs) then JSVal.vNull
  else
    match updatesGet cs (j : Int) with
    | some patch => jsMerge item patch
    | none => item

/-- The Correction Resolver: the dataset pipeline of
`handleAnomalyCorrection` applied to the pending dataset, exactly as in the
source:
`cleanedData.filter((_item, index) => !indicesToRemove.has(index))`
then `.map((item, index) => ...)` consulting the skip set and the update
map at the (post-filter) index, then `.filter(Boolean)`. -/
def applyCorrections (pending : List JSVal) (corrections : List Directive) : List JSVal :=
  let step1 := (pending.enum.filter (fun p => keptAt corrections p.1)).map Prod.snd
  let step2 := step1.enum.map (fun q => resolveAt corrections q.1 q.2)
  step2.filter truthy

/-- Instrumented variant of `applyCorrections` that carries, with every
row, the index it occupied in the original pending dataset. The pipeline
is identical; `applyCorrections_eq_idx` proves that dropping the carried
indices recovers `applyCorrections`. -/
def applyCorrectionsIdx (pending : List JSVal) (corrections : List Directive) :
    List (Nat × JSVal) :=
  let step1 := pending.enum.filter (fun p => keptAt corrections p.1)
  let step2 := step1.enum.map (fun q => (q.2.1, resolveAt corrections q.1 q.2.2))
  step2.filter (fun p => truthy p.2)

/-- An anomaly produced by the data validator: a positional reference into
the pending dataset plus a description. Only the anomaly list's emptiness
matters to the session transitions verified here. -/
structure Anomaly : Type where
  tripIndex : Int
  description : String

/-- The session state of `App`: the accepted dataset (`journeyData`), the
pending dataset (`pendingJourneyData`), the outstanding anomaly list and
the modal-open flag of `useDisclosure`. -/
structure SessionState : Type where
  journeyData : Option (List JSVal)
  pendingJourneyData : Option (List JSVal)
  anomalies : List Anomaly
  anomalyModalOpened : Bool

/-- `handleAnomalyCorrection` as a state transition. The source first
copies the pending dataset with `[...pendingJourneyData]`, which throws a
`TypeError` when `pendingJourneyData` is `null` — modelled as
`Except.error`, in which case no state setter runs. Otherwise it stores the
resolver output as the accepted dataset, clears the pending dataset and
the anomaly list, and closes the modal. -/
def handleAnomalyCorrection (s : SessionState) (corrections : List Directive) :
    Except String SessionState :=
  match s.pendingJourneyData with
  | none => .error "TypeError: pendingJourneyData is not iterable"
  | some pending =>
    .ok { journeyData := some (applyCorrections pending corrections),
          pendingJourneyData := none,
          anomalies := [],
          anomalyModalOpened := false }

/-- The session state observed after calling the handler: on an exception
the setters never ran, so the state is unchanged. -/
def stateAfterResolve (s : SessionState) (cs : List Directive) : SessionState :=
  match handleAnomalyCorrection s cs with
  | .ok s2 => s2
  | .error _ => s

/-- Closing the anomaly modal without resolving: the modal's `onClose` is
wired to `closeAnomalyModal`, the `close` of `useDisclosure`, which only
clears the modal-open flag. -/
def cancelCorrection (s : SessionState) : SessionState :=
  { s with anomalyModalOpened := false }

/-- The `AWAITING_CORRECTION` session state of the spec: a pending dataset
is parked and anomalies are outstanding. -/
def AwaitingCorrection (s : SessionState) : Prop :=
  s.pendingJourneyData.isSome = true ∧ s.anomalies ≠ []

/-- The `CLEAN_LOADED` session state of the spec: accepted data present,
no pending dataset, no outstanding anomalies. -/
def CleanLoaded (s : SessionState) : Prop :=
  s.journeyData.isSome = true ∧ s.pendingJourneyData = none ∧ s.anomalies = []

/-- A concrete session state in `AWAITING_CORRECTION`: one pending row and
one outstanding anomaly, modal open. -/
def awaitingDemo : SessionState :=
  { journeyData := none,
    pendingJourneyData := some [JSVal.vObj [("distance", JSVal.vNum 50)]],
    anomalies := [⟨0, "odometer mismatch"⟩],
    anomalyModalOpened := true }

/-- A concrete session state outside `AWAITING_CORRECTION`: accepted data
loaded, no pending dataset. -/
def cleanDemo : SessionState :=
  { journeyData := some [JSVal.vObj [("distance", JSVal.vNum 50)]],
    pendingJourneyData := none,
    anomalies := [],
    anomalyModalOpened := false }

/-! Helper lemmas about the pipeline. -/

theorem fst_lt_of_mem_enum {α : Type} {l : List α} {p : Nat × α} (h : p ∈ l.enum) :
    p.1 < l.length := by
  rw [List.mem_enum_iff_getElem?] at h
  exact (List.getElem?_eq_some.mp h).1

theorem get_of_mem_enum {α : Type} {l : List α} {p : Nat × α} (h : p ∈ l.enum) :
    ∃ hlt : p.1 < l.length, l.get ⟨p.1, hlt⟩ = p.2 := by
  rw [List.mem_enum_iff_getElem?] at h
  obtain ⟨hlt, hg⟩ := List.getElem?_eq_some.mp h
  exact ⟨hlt, hg⟩

/-- Dropping the carried original indices from the instrumented pipeline
recovers the resolver itself. -/
theorem applyCorrections_eq_idx (pending : List JSVal) (cs : List Directive) :
    applyCorrections pending cs = (applyCorrectionsIdx pending cs).map Prod.snd := by
  unfold applyCorrections applyCorrectionsIdx
  simp only [List.enum_map, List.map_map, List.filter_map]
  rfl

/-- The resolver only consults the skip set and the update map at indices
below the pending length, so two directive lists that agree there produce
the same corrected dataset. -/
theorem applyCorrections_congr (pending : List JSVal) (cs cs' : List Directive)
    (hskip : ∀ j : Nat, j < pending.length →
      ((j : Int) ∈ skipIndices cs ↔ (j : Int) ∈ skipIndices cs'))
    (hupd : ∀ j : Nat, j < pending.length → (j : Int) ∉ skipIndices cs →
      updatesGet cs (j : Int) = updatesGet cs' (j : Int)) :
    applyCorrections pending cs = applyCorrections pending cs' := by
  unfold applyCorrections
  have h1 : pending.enum.filter (fun p => keptAt cs p.1)
      = pending.enum.filter (fun p => keptAt cs' p.1) := by
    apply List.filter_congr
    intro x hx
    have hxlt : x.1 < pending.length := fst_lt_of_mem_enum hx
    unfold keptAt
    rw [decide_eq_decide.mpr (hskip x.1 hxlt)]
  rw [h1]
  dsimp only
  congr 1
  apply List.map_congr_left
  intro q hq
  have hqlt : q.1 < pending.length := by
    have h2 := fst_lt_of_mem_enum hq
    have h3 : ((pending.enum.filter (fun p => keptAt cs' p.1)).map Prod.snd).length
        ≤ pending.length := by
      rw [List.length_map]
      calc (pending.enum.filter (fun p => keptAt cs' p.1)).length
          ≤ pending.enum.length := List.length_filter_le _ _
        _ = pending.length := List.enum_length
    exact lt_of_lt_of_le h2 h3
  unfold resolveAt
  by_cases hmem : (q.1 : Int) ∈ skipIndices cs
  · rw [if_pos (decide_eq_true_eq.mpr hmem),
      if_pos (decide_eq_true_eq.mpr ((hskip q.1 hqlt).mp hmem))]
  · rw [if_neg (by simpa using hmem),
      if_neg (by simpa using (fun h => hmem ((hskip q.1 hqlt).mpr h))),
      hupd q.1 hqlt hmem]

/-- The original indices carried by the instrumented pipeline are a
sublist of the indices surviving the first filter stage. -/
theorem applyCorrectionsIdx_fst_sublist (pending : List JSVal) (cs : List Directive) :
    ((applyCorrectionsIdx pending cs).map Prod.fst).Sublist
      ((pending.enum.filter (fun p => keptAt cs p.1)).map Prod.fst) := by
  unfold applyCorrectionsIdx
  dsimp only
  have h1 : (((pending.enum.filter (fun p => keptAt cs p.1)).enum.map
      (fun q => (q.2.1, resolveAt cs q.1 q.2.2))).filter (fun p => truthy p.2)).Sublist
      ((pending.enum.filter (fun p => keptAt cs p.1)).enum.map
      (fun q => (q.2.1, resolveAt cs q.1 q.2.2))) := List.filter_sublist _
  have h2 := h1.map Prod.fst
  have h3 : ((pending.enum.filter (fun p => keptAt cs p.1)).enum.map
      (fun q => (q.2.1, resolveAt cs q.1 q.2.2))).map Prod.fst
      = (pending.enum.filter (fun p => keptAt cs p.1)).map Prod.fst := by
    rw [List.map_map]
    have h4 : (Prod.fst ∘ fun q : Nat × (Nat × JSVal) => (q.2.1, resolveAt cs q.1 q.2.2))
        = Prod.fst ∘ Prod.snd := rfl
    rw [h4, ← List.map_map, List.enum_map_snd]
  rw [h3] at h2
  exact h2

/-- The original indices of the retained rows are strictly increasing. -/
theorem applyCorrectionsIdx_fst_pairwise (pending : List JSVal) (cs : List Directive) :
    ((applyCorrectionsIdx pending cs).map Prod.fst).Pairwise (· < ·) := by
  have h1 := applyCorrectionsIdx_fst_sublist pending cs
  have h2 : ((pending.enum.filter (fun p => keptAt cs p.1)).map Prod.fst).Sublist
      (pending.enum.map Prod.fst) := (List.filter_sublist _).map _
  rw [List.enum_map_fst] at h2
  exact List.Pairwise.sublist h1 (List.Pairwise.sublist h2 (List.pairwise_lt_range _))

/-- Every retained row is truthy and is either the row of the pending
dataset at its carried original index, or that row spread-merged with some
patch. -/
theorem mem_applyCorrectionsIdx (pending : List JSVal) (cs : List Directive)
    (p : Nat × JSVal) (hp : p ∈ applyCorrectionsIdx pending cs) :
    ∃ hlt : p.1 < pending.length, truthy p.2 = true ∧
      (p.2 = pending.get ⟨p.1, hlt⟩ ∨
        ∃ patch, p.2 = jsMerge (pending.get ⟨p.1, hlt⟩) patch) := by
  unfold applyCorrectionsIdx at hp
  dsimp only at hp
  rw [List.mem_filter] at hp
  obtain ⟨hp1, htr⟩ := hp
  rw [List.mem_map] at hp1
  obtain ⟨q, hq, hgq⟩ := hp1
  subst hgq
  dsimp only at htr ⊢
  have hq2 : q.2 ∈ pending.enum.filter (fun r => keptAt cs r.1) := by
    obtain ⟨hlt, hget⟩ := get_of_mem_enum hq
    rw [← hget]
    exact List.get_mem _ _ _
  rw [List.mem_filter] at hq2
  obtain ⟨hqe, hkept⟩ := hq2
  obtain ⟨hlt, hget⟩ := get_of_mem_enum hqe
  refine ⟨hlt, htr, ?_⟩
  rw [hget]
  unfold resolveAt at htr ⊢
  by_cases hskip : (q.1 : Int) ∈ skipIndices cs
  · rw [if_pos (decide_eq_true_eq.mpr hskip)] at htr
    exact absurd htr (by simp [truthy])
  · rw [if_neg (by simpa using hskip)] at htr ⊢
    cases hu : updatesGet cs (q.1 : Int) with
    | none => left; rfl
    | some patch => right; exact ⟨patch, rfl⟩

/-- A skip directive contributes its trip index to the skip set. -/
theorem mem_skipIndices_of (cs : List Directive) (i : Int) (nd : List (String × JSVal))
    (h : (⟨i, "skip", nd⟩ : Directive) ∈ cs) : i ∈ skipIndices cs := by
  unfold skipIndices
  rw [List.mem_map]
  refine ⟨⟨i, "skip", nd⟩, ?_, rfl⟩
  rw [List.mem_filter]
  exact ⟨h, by rfl⟩

/-- A non-negative index in the skip set is never among the original
indices of the retained rows: the first filter stage drops that row. -/
theorem not_retained_of_skip (pending : List JSVal) (cs : List Directive) (i : Int)
    (hge : 0 ≤ i) (hmem : i ∈ skipIndices cs) :
    i.toNat ∉ (applyCorrectionsIdx pending cs).map Prod.fst := by
  intro hin
  have hsub := (applyCorrectionsIdx_fst_sublist pending cs).subset hin
  rw [List.mem_map] at hsub
  obtain ⟨x, hx, hfst⟩ := hsub
  rw [List.mem_filter] at hx
  have hkept := hx.2
  unfold keptAt at hkept
  rw [Bool.not_eq_true', decide_eq_false_iff_not] at hkept
  apply hkept
  rw [hfst, Int.toNat_of_nonneg hge]
  exact hmem

/-- Erasing all correct directives for index `i` does not change the skip
set. -/
theorem skipIndices_filter_correct (cs : List Directive) (i : Int) :
    skipIndices (cs.filter (fun c => ! (c.action == "correct" && c.tripIndex == i)))
      = skipIndices cs := by
  unfold skipIndices
  rw [List.filter_filter]
  apply congrArg
  apply List.filter_congr
  intro c _
  by_cases hsk : c.action = "skip"
  · simp [hsk]
  · simp [hsk]

/-- Erasing all correct directives for index `i` does not change the
update map at any other key. -/
theorem updatesGet_filter_ne (cs : List Directive) (i j : Int) (hne : j ≠ i) :
    updatesGet (cs.filter (fun c => ! (c.action == "correct" && c.tripIndex == i))) j
      = updatesGet cs j := by
  unfold updatesGet
  rw [List.filter_filter]
  have h1 : (cs.filter (fun c =>
      (c.action == "correct" && c.tripIndex == j) &&
        ! (c.action == "correct" && c.tripIndex == i)))
      = cs.filter (fun c => c.action == "correct" && c.tripIndex == j) := by
    apply List.filter_congr
    intro c _
    by_cases htr : c.tripIndex = j
    · simp [htr, hne]
    · simp [htr]
  rw [h1]

/-- The skip set of a concatenation is the union of the skip sets. -/
theorem mem_skipIndices_append (A B : List Directive) (x : Int) :
    x ∈ skipIndices (A ++ B) ↔ x ∈ skipIndices A ∨ x ∈ skipIndices B := by
  unfold skipIndices
  rw [List.filter_append, List.map_append, List.mem_append]

/-- A leading non-skip directive contributes nothing to the skip set. -/
theorem skipIndices_cons_not_skip (d : Directive) (B : List Directive)
    (h : (d.action == "skip") = false) : skipIndices (d :: B) = skipIndices B := by
  unfold skipIndices
  simp [List.filter_cons, h]

/-- A leading skip directive contributes its trip index to the skip set. -/
theorem skipIndices_cons_skip (d : Directive) (B : List Directive)
    (h : (d.action == "skip") = true) :
    skipIndices (d :: B) = d.tripIndex :: skipIndices B := by
  unfold skipIndices
  simp [List.filter_cons, h]

/-- Removing a directive whose trip index differs from the key leaves the
update map unchanged at that key. -/
theorem updatesGet_append_cons_skipmid (A B : List Directive) (d : Directive) (j : Int)
    (hne : (d.tripIndex == j) = false) :
    updatesGet (A ++ d :: B) j = updatesGet (A ++ B) j := by
  unfold updatesGet
  rw [List.filter_append, List.filter_append, List.filter_cons]
  simp [hne]

/-! The claims. -/

/-- Claim C1, at the failing input: for the two-row pending dataset and the
single in-range skip directive on index 0, the claim demands a result of
length 2 - 1 = 1, but the resolver of the source returns the empty list —
the leftover pre-filter removes row 0 and re-indexes, after which the map
stage nulls the row that moved into position 0 as well, contradicting the
code's own comments that the original indices must be used. -/
theorem lengthConservation_failure :
    applyCorrections [JSVal.vObj [("a", JSVal.vNum 1)], JSVal.vObj [("b", JSVal.vNum 2)]]
      [⟨0, "skip", []⟩] = [] ∧
    [JSVal.vObj [("a", JSVal.vNum 1)], JSVal.vObj [("b", JSVal.vNum 2)]].length - 1 = 1 :=
  ⟨rfl, rfl⟩

/-- Claim C2, at the failing input: pending rows a, b, c with directives
skip 0 and correct 2 with patch d=42. The claim demands the result
[b, c merged with the patch]; the source returns [c] unpatched: after the
pre-filter re-indexes, the map nulls b (post-filter index 0 is in the skip
set) and looks the patch up at post-filter index 1, finding nothing. -/
theorem patchPrecedence_failure :
    applyCorrections
      [JSVal.vObj [("a", JSVal.vNum 1)], JSVal.vObj [("b", JSVal.vNum 2)],
        JSVal.vObj [("c", JSVal.vNum 3)]]
      [⟨0, "skip", []⟩, ⟨2, "correct", [("d", JSVal.vNum 42)]⟩]
      = [JSVal.vObj [("c", JSVal.vNum 3)]] :=
  rfl

/-- Claim C3: when the directive list contains both a skip and a correct
directive for the same in-range index i, the row originally at position i
is absent from the result (its original index is not among the carried
indices of the retained rows), and erasing every correct directive for i
leaves the result unchanged — the patch is never applied, because the map
stage checks the skip set before consulting the update map. -/
theorem skipPrecedence (pending : List JSVal) (cs : List Directive) (i : Int)
    (P nd : List (String × JSVal)) (hge : 0 ≤ i) (_hlt : i < (pending.length : Int))
    (hskip : (⟨i, "skip", nd⟩ : Directive) ∈ cs)
    (_hcorr : (⟨i, "correct", P⟩ : Directive) ∈ cs) :
    i.toNat ∉ (applyCorrectionsIdx pending cs).map Prod.fst ∧
    applyCorrections pending cs = applyCorrections pending
      (cs.filter (fun c => ! (c.action == "correct" && c.tripIndex == i))) := by
  have hsk : i ∈ skipIndices cs := mem_skipIndices_of cs i nd hskip
  refine ⟨not_retained_of_skip pending cs i hge hsk, ?_⟩
  apply applyCorrections_congr
  · intro j _
    rw [skipIndices_filter_correct]
  · intro j _ hnot
    have hne : (j : Int) ≠ i := fun he => hnot (he ▸ hsk)
    rw [updatesGet_filter_ne cs i (j : Int) hne]

/-- Witness for C3 at a concrete input: two rows, directives skip 1 and
correct 1. -/
theorem skipPrecedence_witness :
    (1 : Int).toNat ∉
      (applyCorrectionsIdx
        [JSVal.vObj [("a", JSVal.vNum 1)], JSVal.vObj [("b", JSVal.vNum 2)]]
        [⟨1, "skip", []⟩, ⟨1, "correct", [("x", JSVal.vNum 9)]⟩]).map Prod.fst ∧
    applyCorrections [JSVal.vObj [("a", JSVal.vNum 1)], JSVal.vObj [("b", JSVal.vNum 2)]]
        [⟨1, "skip", []⟩, ⟨1, "correct", [("x", JSVal.vNum 9)]⟩]
      = applyCorrections [JSVal.vObj [("a", JSVal.vNum 1)], JSVal.vObj [("b", JSVal.vNum 2)]]
        (([⟨1, "skip", []⟩, ⟨1, "correct", [("x", JSVal.vNum 9)]⟩] :
            List Directive).filter
          (fun c => ! (c.action == "correct" && c.tripIndex == 1))) :=
  skipPrecedence
    [JSVal.vObj [("a", JSVal.vNum 1)], JSVal.vObj [("b", JSVal.vNum 2)]]
    [⟨1, "skip", []⟩, ⟨1, "correct", [("x", JSVal.vNum 9)]⟩] 1
    [("x", JSVal.vNum 9)] [] (by decide) (by decide)
    (List.Mem.head _) (List.Mem.tail _ (List.Mem.head _))

/-- Claim C4: the retained rows appear in the result in the order of their
original positions — the result is the instrumented pipeline stripped of
its carried indices, those indices are strictly increasing, and every
retained row is the pending row at its carried index, possibly
spread-merged with some patch. -/
theorem orderPreservation (pending : List JSVal) (cs : List Directive) :
    applyCorrections pending cs = (applyCorrectionsIdx pending cs).map Prod.snd ∧
    ((applyCorrectionsIdx pending cs).map Prod.fst).Pairwise (· < ·) ∧
    ∀ p ∈ applyCorrectionsIdx pending cs, ∃ hlt : p.1 < pending.length,
      p.2 = pending.get ⟨p.1, hlt⟩ ∨ ∃ patch, p.2 = jsMerge (pending.get ⟨p.1, hlt⟩) patch :=
  ⟨applyCorrections_eq_idx pending cs, applyCorrectionsIdx_fst_pairwise pending cs,
    fun p hp => by
      obtain ⟨hlt, _, hdis⟩ := mem_applyCorrectionsIdx pending cs p hp
      exact ⟨hlt, hdis⟩⟩

/-- Witness for C4 at a concrete input: one row and one correct directive. -/
theorem orderPreservation_witness :
    applyCorrections [JSVal.vObj [("a", JSVal.vNum 1)]]
        [⟨0, "correct", [("a", JSVal.vNum 2)]⟩]
      = (applyCorrectionsIdx [JSVal.vObj [("a", JSVal.vNum 1)]]
          [⟨0, "correct", [("a", JSVal.vNum 2)]⟩]).map Prod.snd ∧
    ((applyCorrectionsIdx [JSVal.vObj [("a", JSVal.vNum 1)]]
        [⟨0, "correct", [("a", JSVal.vNum 2)]⟩]).map Prod.fst).Pairwise (· < ·) ∧
    ∀ p ∈ applyCorrectionsIdx [JSVal.vObj [("a", JSVal.vNum 1)]]
        [⟨0, "correct", [("a", JSVal.vNum 2)]⟩],
      ∃ hlt : p.1 < [JSVal.vObj [("a", JSVal.vNum 1)]].length,
        p.2 = [JSVal.vObj [("a", JSVal.vNum 1)]].get ⟨p.1, hlt⟩ ∨
          ∃ patch, p.2 = jsMerge ([JSVal.vObj [("a", JSVal.vNum 1)]].get ⟨p.1, hlt⟩) patch :=
  orderPreservation [JSVal.vObj [("a", JSVal.vNum 1)]]
    [⟨0, "correct", [("a", JSVal.vNum 2)]⟩]

/-- Claim C5: a directive whose trip index is negative or at least the
pending length has no effect — deleting it from the directive list leaves
the result unchanged, since both the skip-set membership tests and the
update-map lookups only ever use indices below the pending length. -/
theorem outOfRangeNoOp (pending : List JSVal) (A B : List Directive) (d : Directive)
    (hout : d.tripIndex < 0 ∨ (pending.length : Int) ≤ d.tripIndex) :
    applyCorrections pending (A ++ d :: B) = applyCorrections pending (A ++ B) := by
  apply applyCorrections_congr
  · intro j hj
    have hne : d.tripIndex ≠ (j : Int) := by
      rcases hout with h | h
      · intro he
        have hj0 : (0 : Int) ≤ (j : Int) := Int.ofNat_nonneg j
        omega
      · intro he
        have hjl : (j : Int) < (pending.length : Int) := by exact_mod_cast hj
        omega
    rw [mem_skipIndices_append, mem_skipIndices_append]
    by_cases hact : (d.action == "skip") = true
    · rw [skipIndices_cons_skip d B hact]
      constructor
      · rintro (h | h)
        · exact Or.inl h
        · rw [List.mem_cons] at h
          rcases h with h | h
          · exact absurd h.symm hne
          · exact Or.inr h
      · rintro (h | h)
        · exact Or.inl h
        · exact Or.inr (List.mem_cons_of_mem _ h)
    · rw [skipIndices_cons_not_skip d B (by simpa using hact)]
  · intro j hj _
    apply updatesGet_append_cons_skipmid
    have hne : d.tripIndex ≠ (j : Int) := by
      rcases hout with h | h
      · intro he
        have hj0 : (0 : Int) ≤ (j : Int) := Int.ofNat_nonneg j
        omega
      · intro he
        have hjl : (j : Int) < (pending.length : Int) := by exact_mod_cast hj
        omega
    exact beq_eq_false_iff_ne.mpr hne

/-- Witness for C5 at a concrete input: one row, one out-of-range skip
directive on index 5. -/
theorem outOfRangeNoOp_witness :
    applyCorrections [JSVal.vObj [("a", JSVal.vNum 1)]]
        ([] ++ (⟨5, "skip", []⟩ : Directive) :: [])
      = applyCorrections [JSVal.vObj [("a", JSVal.vNum 1)]] ([] ++ []) :=
  outOfRangeNoOp [JSVal.vObj [("a", JSVal.vNum 1)]] [] [] ⟨5, "skip", []⟩
    (Or.inr (by decide))

/-- Claim C6: in `AWAITING_CORRECTION`, resolving stores the resolver
output as the accepted dataset, clears the pending dataset and the anomaly
list, closes the modal, and leaves the session in `CLEAN_LOADED`. -/
theorem resolveTransition (s : SessionState) (cs : List Directive)
    (h : AwaitingCorrection s) :
    ∃ pending, s.pendingJourneyData = some pending ∧
      handleAnomalyCorrection s cs = Except.ok
        { journeyData := some (applyCorrections pending cs),
          pendingJourneyData := none,
          anomalies := [],
          anomalyModalOpened := false } ∧
      CleanLoaded (stateAfterResolve s cs) ∧
      (stateAfterResolve s cs).anomalyModalOpened = false := by
  obtain ⟨hsome, _⟩ := h
  obtain ⟨pending, hp⟩ := Option.isSome_iff_exists.mp hsome
  refine ⟨pending, hp, ?_, ?_, ?_⟩
  · unfold handleAnomalyCorrection
    rw [hp]
  · unfold CleanLoaded stateAfterResolve handleAnomalyCorrection
    rw [hp]
    exact ⟨rfl, rfl, rfl⟩
  · unfold stateAfterResolve handleAnomalyCorrection
    rw [hp]

/-- Witness for C6 at the concrete awaiting state and the empty directive
list. -/
theorem resolveTransition_witness :
    AwaitingCorrection awaitingDemo ∧
    (∃ pending, awaitingDemo.pendingJourneyData = some pending ∧
      handleAnomalyCorrection awaitingDemo [] = Except.ok
        { journeyData := some (applyCorrections pending []),
          pendingJourneyData := none,
          anomalies := [],
          anomalyModalOpened := false } ∧
      CleanLoaded (stateAfterResolve awaitingDemo []) ∧
      (stateAfterResolve awaitingDemo []).anomalyModalOpened = false) :=
  ⟨⟨rfl, List.cons_ne_nil _ _⟩,
    resolveTransition awaitingDemo [] ⟨rfl, List.cons_ne_nil _ _⟩⟩

/-- Counterexample to claim C7 at a concrete awaiting state with previous
accepted data: closing the correction workflow neither discards the
pending dataset nor the anomaly list, and the session is not in
`CLEAN_LOADED` afterwards — contradicting the claimed cancel transition. -/
theorem cancelKeepsPending :
    (cancelCorrection
      { journeyData := some [],
        pendingJourneyData := some [JSVal.vObj [("a", JSVal.vNum 1)]],
        anomalies := [⟨0, "negative distance"⟩],
        anomalyModalOpened := true }).pendingJourneyData
      = some [JSVal.vObj [("a", JSVal.vNum 1)]] ∧
    (cancelCorrection
      { journeyData := some [],
        pendingJourneyData := some [JSVal.vObj [("a", JSVal.vNum 1)]],
        anomalies := [⟨0, "negative distance"⟩],
        anomalyModalOpened := true }).anomalies = [⟨0, "negative distance"⟩] ∧
    ¬ CleanLoaded (cancelCorrection
      { journeyData := some [],
        pendingJourneyData := some [JSVal.vObj [("a", JSVal.vNum 1)]],
        anomalies := [⟨0, "negative distance"⟩],
        anomalyModalOpened := true }) := by
  refine ⟨rfl, rfl, ?_⟩
  intro hcl
  obtain ⟨_, hpend, _⟩ := hcl
  exact Option.noConfusion hpend

/-- Claim C7 as amended: closing the correction workflow without resolving
only clears the modal-open flag; the accepted dataset, the pending dataset
and the anomaly list are all left unchanged (pending data and anomalies
are retained, not discarded, and the session does not revert). -/
theorem cancelOnlyClosesModal (s : SessionState) :
    (cancelCorrection s).journeyData = s.journeyData ∧
    (cancelCorrection s).pendingJourneyData = s.pendingJourneyData ∧
    (cancelCorrection s).anomalies = s.anomalies ∧
    (cancelCorrection s).anomalyModalOpened = false :=
  ⟨rfl, rfl, rfl, rfl⟩

/-- Claim C8: resolving while no pending dataset exists raises the
invalid-operation condition to the caller (the spread of `null` throws)
and, the setters never running, leaves the session state unchanged. -/
theorem resolveInvalidOp (s : SessionState) (cs : List Directive)
    (h : s.pendingJourneyData = none) :
    handleAnomalyCorrection s cs =
      Except.error "TypeError: pendingJourneyData is not iterable" ∧
    stateAfterResolve s cs = s := by
  constructor
  · unfold handleAnomalyCorrection
    rw [h]
  · unfold stateAfterResolve handleAnomalyCorrection
    rw [h]

/-- Witness for C8 at the concrete clean state and the empty directive
list. -/
theorem resolveInvalidOp_witness :
    handleAnomalyCorrection cleanDemo [] =
      Except.error "TypeError: pendingJourneyData is not iterable" ∧
    stateAfterResolve cleanDemo [] = cleanDemo :=
  resolveInvalidOp cleanDemo [] rfl

/-- Claim C9: with the empty directive list the resolver returns exactly
the truthy entries of the pending dataset in order; in particular it is
the identity on datasets all of whose entries are truthy, while falsy
entries are dropped by the final Boolean filter. -/
theorem emptyDirectives_keeps_truthy (ds : List JSVal) :
    applyCorrections ds [] = ds.filter truthy ∧
      ((∀ v ∈ ds, truthy v = true) → applyCorrections ds [] = ds) := by
  have hmain : applyCorrections ds [] = ds.filter truthy := by
    unfold applyCorrections
    dsimp only
    have h1 : ds.enum.filter (fun p => keptAt [] p.1) = ds.enum := by
      rw [List.filter_eq_self]
      intro a _
      unfold keptAt skipIndices
      simp
    rw [h1, List.enum_map_snd]
    have h2 : ds.enum.map (fun q => resolveAt [] q.1 q.2) = ds.enum.map Prod.snd := by
      apply List.map_congr_left
      intro a _
      unfold resolveAt skipIndices updatesGet
      simp
    rw [h2, List.enum_map_snd]
  exact ⟨hmain, fun hall => by rw [hmain]; exact List.filter_eq_self.mpr hall⟩

/-- Witness for C9 at concrete inputs: a dataset with a null entry loses
exactly that entry, and an all-truthy dataset passes through unchanged. -/
theorem emptyDirectives_witness :
    applyCorrections [JSVal.vNull, JSVal.vObj [("a", JSVal.vNum 1)]] [] =
      [JSVal.vObj [("a", JSVal.vNum 1)]] ∧
    applyCorrections [JSVal.vObj [("a", JSVal.vNum 1)]] [] =
      [JSVal.vObj [("a", JSVal.vNum 1)]] := by
  constructor
  · have h := (emptyDirectives_keeps_truthy [JSVal.vNull, JSVal.vObj [("a", JSVal.vNum 1)]]).1
    rw [h]
    rfl
  · exact (emptyDirectives_keeps_truthy [JSVal.vObj [("a", JSVal.vNum 1)]]).2
      (by intro v hv; rw [List.mem_singleton] at hv; subst hv; rfl)

end Polestar
